import Mathlib

/-!
Verification development for the QRAFT QR air-gap file-transfer application.

The definitions below are a shallow embedding of the TypeScript sources:
  * `src/utils.ts`   — `calculateChecksum`, `parseChunkInput`
  * `src/state.ts`   — the receiver chunk store (`addReceivedChunk`,
    `clearReceivedChunks`), `resetReceiverStateInternal`,
    `resetSenderStateInternal`
  * `src/sender.ts`  — the chunk splitter inside `prepareChunks`,
    `displayNextChunk`, `displaySpecificChunk`, `displayFinalConfirmationQR`,
    `handleSendSpecific`, `handlePostFinalState`, `handleStopTransfer`
  * `receiver.ts`    — `handleScanResult`, `processHandshake`,
    `processDataChunk`, `handleFinalPacket`,
    `checkForMissingChunksAndFinalize`, `formatMissingChunks`,
    `verifyAndDownload`, `startScan`, `stopScan`

JavaScript strings are modelled as Lean `String`/`List Char`, byte buffers as
`List Nat`, and the JS `Map<number, string>` as an association list in
insertion order.  External collaborators (the base64 decoder `window.atob`,
i.e. `utils.base64ToArrayBuffer`) are passed as explicit function parameters.
-/

namespace QRAFT

/-! ### Protocol constants (`src/config.ts`) -/

/-- `config.PROTOCOL_VERSION`. -/
def PROTOCOL_VERSION : Nat := 1

/-- `config.MULTI_FILE_ARCHIVE_NAME`. -/
def MULTI_FILE_ARCHIVE_NAME : String := "transfer_archive.zip"

/-- QR error-correction levels (`qr-code-styling` `ErrorCorrectionLevel`). -/
inductive ECLevel
  | L | M | Q | H
deriving DecidableEq, Repr

/-- `config.QR_CAPACITY_ESTIMATES`. -/
def QR_CAPACITY_ESTIMATES : ECLevel → Nat
  | .L => 2000
  | .M => 1500
  | .Q => 1100
  | .H => 800

/-- `config.QR_CHUNK_SIZE_BUFFER`. -/
def QR_CHUNK_SIZE_BUFFER : Nat := 150

/-- `config.MIN_CHUNK_SIZE`. -/
def MIN_CHUNK_SIZE : Nat := 100

/-! ### Chunk splitter (`prepareChunks`, `src/sender.ts` lines 356-378)

The source splits the base64 string with
`while (startIndex < dataLength) { len := min(effectiveChunkSize, remaining);
push(substring(startIndex, startIndex+len)); startIndex += len }`.
On a char list, each iteration takes `k` characters and drops them.  The
source guarantees `effectiveChunkSize = max(1, min(target, maxDataPayload))
≥ 1`; the `k = 0` guard below only makes the definition total. -/

def prepareChunksSplit (k : Nat) (s : List Char) : List (List Char) :=
  if h : k = 0 ∨ s = [] then []
  else s.take k :: prepareChunksSplit k (s.drop k)
termination_by s.length
decreasing_by
  push_neg at h
  have hk : 0 < k := Nat.pos_of_ne_zero h.1
  have hs : 0 < s.length := List.length_pos.mpr h.2
  rw [List.length_drop]
  omega

/-- `effectiveChunkSize` computation in `prepareChunks`:
`Math.max(1, Math.min(targetPayloadSize, maxDataPayload))`. -/
def effectiveChunkSize (targetPayloadSize maxDataPayload : Nat) : Nat :=
  max 1 (min targetPayloadSize maxDataPayload)

/-! ### Receiver chunk store (`src/state.ts`)

`receivedChunksMap : Map<number, string>` is modelled as an association list
in insertion order (a JS `Map` iterates in insertion order and `set` appends
new keys at the end), together with the separately maintained counter
`receivedChunkCount`. -/

/-- The receiver's `receivedChunksMap`, in insertion order. -/
abbrev ChunkMap := List (Nat × String)

/-- `receivedChunksMap.has(seq)`. -/
def mapHas (m : ChunkMap) (seq : Nat) : Bool :=
  m.any (fun p => p.fst == seq)

/-- `receivedChunksMap.get(seq)`. -/
def mapGet (m : ChunkMap) (seq : Nat) : Option String :=
  (m.find? (fun p => p.fst == seq)).map Prod.snd

/-- The keys of the map, in insertion order. -/
def mapKeys (m : ChunkMap) : List Nat := m.map Prod.fst

/-- The pair (`receivedChunksMap`, `receivedChunkCount`) from `src/state.ts`. -/
structure ChunkStore where
  map : ChunkMap
  count : Nat
deriving DecidableEq, Repr

/-- The initial store: empty map, count 0. -/
def emptyStore : ChunkStore := ⟨[], 0⟩

/-- `state.addReceivedChunk` (`src/state.ts` lines 261-270): insert only when
the key is absent, incrementing `receivedChunkCount` for new keys only. -/
def addReceivedChunk (st : ChunkStore) (seq : Nat) (data : String) : ChunkStore :=
  if mapHas st.map seq then st
  else ⟨st.map ++ [(seq, data)], st.count + 1⟩

/-- `state.clearReceivedChunks` (`src/state.ts` lines 250-253). -/
def clearReceivedChunks (_st : ChunkStore) : ChunkStore := ⟨[], 0⟩

/-- Delivering a list of data packets to the store.  The data carried for a
given sequence number is fixed (`chunkData : Nat → String`), because the
sender always emits `chunks[seq-1]` for sequence number `seq`. -/
def deliverAll (chunkData : Nat → String) (seqs : List Nat) (st : ChunkStore) : ChunkStore :=
  seqs.foldl (fun s q => addReceivedChunk s q (chunkData q)) st

/-- The distinct elements of `seqs`, listed in ascending order `1..total`. -/
def ascendingDistinct (total : Nat) (seqs : List Nat) : List Nat :=
  ((List.range total).map (fun i => i + 1)).filter (fun q => seqs.contains q)

/-! ### Checksum (`utils.calculateChecksum`, `src/utils.ts` lines 66-74)

The source sums the bytes with `(sum + bytes[i]) % 65536` at each step, then
renders `sum.toString(16).padStart(4, "0")`.  JavaScript's
`Number.prototype.toString(16)` on a non-negative integer produces the
lowercase hexadecimal digits without leading zeros (just `"0"` for zero),
which is exactly `Nat.toDigits 16`. -/

/-- `"…".padStart(4, "0")` on a char list. -/
def padStart4Zero (l : List Char) : List Char :=
  List.replicate (4 - l.length) '0' ++ l

/-- `utils.calculateChecksum`, on the byte list of the `ArrayBuffer`. -/
def calculateChecksum (bytes : List Nat) : String :=
  let sum := bytes.foldl (fun s b => (s + b) % 65536) 0
  ⟨padStart4Zero (Nat.toDigits 16 sum)⟩

/-- A char is a lowercase hexadecimal digit. -/
def isLowerHexDigit (c : Char) : Bool :=
  (decide ('0' ≤ c) && decide (c ≤ '9')) || (decide ('a' ≤ c) && decide (c ≤ 'f'))

/-- Numeric value of a (lowercase) hexadecimal digit char. -/
def hexCharVal (c : Char) : Nat :=
  if c ≤ '9' then c.toNat - 48 else c.toNat - 87

/-- Big-endian interpretation of a list of hexadecimal digit chars. -/
def interpHex (l : List Char) : Nat :=
  l.foldl (fun a c => 16 * a + hexCharVal c) 0

/-- The minimal (no leading zero) hexadecimal digit list of `n`; the reference
rendering that `Nat.toDigits 16` (and JS `toString(16)`) is proved to equal. -/
def minimalHexDigits (n : Nat) : List Char :=
  if n < 16 then [Nat.digitChar n]
  else minimalHexDigits (n / 16) ++ [Nat.digitChar (n % 16)]
termination_by n
decreasing_by
  exact Nat.div_lt_self (by omega) (by omega)

/-! ### Missing-chunk reporting (`receiver.ts`) -/

/-- The missing-sequence list computed in `checkForMissingChunksAndFinalize`
and `displayMissingChunks`: `for i in 1..total, if !map.has(i) push(i)`. -/
def missingChunkList (total : Nat) (m : ChunkMap) : List Nat :=
  ((List.range total).map (fun i => i + 1)).filter (fun i => !(mapHas m i))

/-- Insertion into an ascending list (used to model
`Array.from(set).sort((a,b) => a-b)`). -/
def insertAsc (x : Nat) : List Nat → List Nat
  | [] => [x]
  | y :: ys => if x ≤ y then x :: y :: ys else y :: insertAsc x ys

/-- Numeric ascending sort (`missing.sort((a, b) => a - b)`). -/
def sortAsc (l : List Nat) : List Nat := l.foldr insertAsc []

/-- Rendering of one range: `start` alone or `start-end`. -/
def rangeStr (a b : Nat) : String :=
  if a = b then toString a else toString a ++ "-" ++ toString b

/-- The range-compression loop of `formatMissingChunks`: `rangeStart`/`rangeEnd`
walk the sorted tail, extending the current range while consecutive. -/
def rangesFrom (rangeStart rangeEnd : Nat) : List Nat → List String
  | [] => [rangeStr rangeStart rangeEnd]
  | x :: xs =>
    if x = rangeEnd + 1 then rangesFrom rangeStart x xs
    else rangeStr rangeStart rangeEnd :: rangesFrom x x xs

/-- `ranges.join(", ")`. -/
def joinCommaSpace : List String → String
  | [] => ""
  | [s] => s
  | s :: rest => s ++ ", " ++ joinCommaSpace rest

/-- `formatMissingChunks` (`receiver.ts` lines 644-675): sort ascending, then
compress consecutive runs into `a-b` ranges joined by `", "`;
the empty list renders as `"None"`. -/
def formatMissingChunks (missing : List Nat) : String :=
  match sortAsc missing with
  | [] => "None"
  | x :: xs => joinCommaSpace (rangesFrom x x xs)

/-! ### Packets (`types.ts`)

A `Packet` is a structurally well-formed payload: `JSON.parse` succeeded and
the `v`/`fid`/`typ` fields have the required primitive types (unparseable or
mistyped scans are dropped by `handleScanResult` before any state change, so
they are identity steps and are not represented).  `seq`, `tot`, `siz` are
modelled as `Nat`: negative or fractional JSON numbers are rejected by the
same validations that reject `0` (`seq <= 0`, `tot < 0`, `Number.isInteger`),
so behaviour on the representable domain is unchanged. -/

inductive Packet
  | handshake (v : Nat) (fid nam : String) (siz tot : Nat) (zip : Bool) (ofn : Option String)
  | dataP (v : Nat) (fid : String) (seq : Nat) (dat : String)
  | finalP (v : Nat) (fid chk : String)
deriving DecidableEq, Repr

/-- `payload.v`. -/
def Packet.pv : Packet → Nat
  | .handshake v _ _ _ _ _ _ => v
  | .dataP v _ _ _ => v
  | .finalP v _ _ => v

/-- `payload.fid`. -/
def Packet.pfid : Packet → String
  | .handshake _ fid _ _ _ _ _ => fid
  | .dataP _ fid _ _ => fid
  | .finalP _ fid _ => fid

/-! ### Receiver state machine (`receiver.ts`, `src/state.ts`) -/

/-- `types.ReceiverState`. -/
inductive ReceiverState
  | idle | waiting_handshake | receiving_data | waiting_final
  | waiting_missing | verifying | complete | error
deriving DecidableEq, Repr

/-- The receiver-side variables of `src/state.ts` that the packet-handling
logic reads or writes.  `hasScanner` models `qrScanner !== null`; rate/UI
variables are omitted (they feed no control-flow decision). -/
structure Receiver where
  receiverState : ReceiverState
  isScanning : Bool
  hasScanner : Bool
  expectedFileId : Option String
  expectedTotalChunks : Option Nat
  expectedArchiveName : Option String
  expectedDataSize : Option Nat
  expectedIsZip : Bool
  expectedOriginalFilename : Option String
  store : ChunkStore
deriving DecidableEq, Repr

/-- The initial receiver state (module load). -/
def initialReceiver : Receiver :=
  ⟨.idle, false, false, none, none, none, none, false, none, ⟨[], 0⟩⟩

/-- `state.resetReceiverStateInternal` (`src/state.ts` lines 350-368): resets
all transfer variables and clears the chunk store; does not touch the scanner
instance or `isScanning`. -/
def resetReceiverStateInternal (rx : Receiver) : Receiver :=
  { rx with
    receiverState := .idle
    expectedFileId := none
    expectedTotalChunks := none
    expectedArchiveName := none
    expectedDataSize := none
    expectedIsZip := false
    expectedOriginalFilename := none
    store := ⟨[], 0⟩ }

/-- `stopScan` (`receiver.ts` lines 148-176): no-op unless actively scanning
with a live scanner; otherwise stops and destroys the scanner instance.
It does not change `receiverState` or any transfer variable. -/
def stopScan (rx : Receiver) : Receiver :=
  if rx.isScanning && rx.hasScanner then
    { rx with hasScanner := false, isScanning := false }
  else rx

/-- `startScan` (`receiver.ts` lines 64-143), successful-start path: no-op if
already scanning, otherwise resets the transfer state, enters
`waiting_handshake`, and (once `scanner.start()` resolves) sets `isScanning`. -/
def startScan (rx : Receiver) : Receiver :=
  if rx.isScanning then rx
  else
    { resetReceiverStateInternal rx with
      receiverState := .waiting_handshake
      hasScanner := true
      isScanning := true }

/-- `startScan` when `scanner.start()` rejects: the catch handler reports the
error, resets the state again (back to `idle`), and disposes the scanner. -/
def startScanFailure (rx : Receiver) : Receiver :=
  if rx.isScanning then rx
  else
    { resetReceiverStateInternal rx with hasScanner := false, isScanning := false }

/-- Outcome of `verifyAndDownload` (`receiver.ts` lines 720-951). -/
inductive VerifyOutcome
  | infoMissing | countMismatch | assemblyFailure | emptyDecode
  | sizeMismatch | checksumMismatch | downloadStarted
deriving DecidableEq, Repr

/-- Observable effect of one receiver packet-handling step. -/
inductive RxEvent
  | ignored
  | versionIncompatible (got : Nat)
  | handshakeAccepted (fid : String)
  | chunkStored (seq : Nat)
  | duplicateChunk (seq : Nat)
  | badChecksumField
  | internalTotalUnknown
  | missingReported (missing : List Nat)
  | verified (o : VerifyOutcome)
deriving DecidableEq, Repr

/-- Whether the event records that `verifyAndDownload` ran. -/
def RxEvent.isVerified : RxEvent → Bool
  | .verified _ => true
  | _ => false

/-- Chunk assembly in `verifyAndDownload` step 3: concatenate
`map.get(1) … map.get(total)` in sequence order; `none` models the thrown
`Critical Error: Missing chunk` if any entry is absent. -/
def assembleChunks (total : Nat) (m : ChunkMap) : Option String :=
  (((List.range total).map (fun i => i + 1)).mapM (fun i => mapGet m i)).map
    (fun l => String.join l)

/-- `verifyAndDownload` (`receiver.ts` lines 720-951) as a pure transition.
`atob` is the external base64 decoder (`utils.base64ToArrayBuffer`, which
returns an empty buffer on decode failure).  The success path reaches
`complete`; the deferred 100 ms cleanup is the separate `cleanup` action. -/
def verifyAndDownload (atob : String → List Nat) (rx : Receiver) (chk : String) :
    Receiver × RxEvent :=
  let rx := stopScan rx
  match rx.expectedTotalChunks, rx.expectedDataSize, rx.expectedArchiveName with
  | some total, some size, some _nam =>
    if rx.store.count ≠ total then
      ({ rx with receiverState := .error }, .verified .countMismatch)
    else
      match assembleChunks total rx.store.map with
      | none => ({ rx with receiverState := .error }, .verified .assemblyFailure)
      | some joined =>
        let bytes := atob joined
        if bytes.length = 0 ∧ 0 < size then
          ({ rx with receiverState := .error }, .verified .emptyDecode)
        else if bytes.length ≠ size then
          ({ rx with receiverState := .error }, .verified .sizeMismatch)
        else if calculateChecksum bytes ≠ chk then
          ({ rx with receiverState := .error }, .verified .checksumMismatch)
        else
          ({ rx with receiverState := .complete }, .verified .downloadStarted)
  | _, _, _ => ({ rx with receiverState := .error }, .verified .infoMissing)

/-- `checkForMissingChunksAndFinalize` (`receiver.ts` lines 577-636). -/
def checkForMissingChunksAndFinalize (atob : String → List Nat) (rx : Receiver)
    (chk : String) : Receiver × RxEvent :=
  match rx.expectedTotalChunks with
  | none => (stopScan { rx with receiverState := .error }, .internalTotalUnknown)
  | some total =>
    if total = 0 then verifyAndDownload atob rx chk
    else
      let missing := missingChunkList total rx.store.map
      if missing.isEmpty then verifyAndDownload atob rx chk
      else
        let rx := { rx with receiverState := .waiting_missing }
        if !rx.isScanning then (startScan rx, .missingReported missing)
        else (rx, .missingReported missing)

/-- `handleFinalPacket` (`receiver.ts` lines 535-569). -/
def handleFinalPacket (atob : String → List Nat) (rx : Receiver) (fid chk : String) :
    Receiver × RxEvent :=
  if rx.expectedFileId ≠ some fid then (rx, .ignored)
  else if chk = "" then (stopScan { rx with receiverState := .error }, .badChecksumField)
  else checkForMissingChunksAndFinalize atob rx chk

/-- `processDataChunk` (`receiver.ts` lines 467-528). -/
def processDataChunk (rx : Receiver) (seq : Nat) (dat : String) : Receiver × RxEvent :=
  let tot := rx.expectedTotalChunks.getD 0
  if seq = 0 ∨ tot < seq ∨ dat = "" then (rx, .ignored)
  else if mapHas rx.store.map seq then (rx, .duplicateChunk seq)
  else
    let store := addReceivedChunk rx.store seq dat
    let rx1 := { rx with store := store }
    let nowComplete := store.count = tot
    if rx.receiverState = .waiting_missing then
      -- `displayMissingChunks()` refreshes the report; with no chunk missing
      -- it already moves `waiting_missing` to `waiting_final`.
      let missing := missingChunkList tot store.map
      let rx2 :=
        if missing.isEmpty then { rx1 with receiverState := .waiting_final } else rx1
      let rx3 := if nowComplete then { rx2 with receiverState := .waiting_final } else rx2
      (rx3, .chunkStored seq)
    else
      let rx2 := if nowComplete then { rx1 with receiverState := .waiting_final } else rx1
      (rx2, .chunkStored seq)

/-- `processHandshake` (`receiver.ts` lines 380-461).  `safeDecodeURIComponent`
is an external URI codec and is modelled as the identity on the stored names
(no control flow depends on the decoded text). -/
def processHandshake (rx : Receiver) (fid nam : String) (siz tot : Nat) (zip : Bool)
    (ofn : Option String) : Receiver × RxEvent :=
  if zip ≠ true then (rx, .ignored)
  else if rx.expectedFileId = none ∨ rx.expectedFileId ≠ some fid then
    let rx :=
      { rx with
        store := ⟨[], 0⟩
        expectedFileId := some fid
        expectedArchiveName := some nam
        expectedDataSize := some siz
        expectedTotalChunks := some tot
        expectedIsZip := zip
        expectedOriginalFilename := ofn }
    if tot = 0 then ({ rx with receiverState := .waiting_final }, .handshakeAccepted fid)
    else ({ rx with receiverState := .receiving_data }, .handshakeAccepted fid)
  else (rx, .ignored)

/-- The four intake states of `handleScanResult` step 1. -/
def intakeStates : List ReceiverState :=
  [.waiting_handshake, .receiving_data, .waiting_final, .waiting_missing]

/-- The wrong-session filter of `handleScanResult` step 2:
`expectedFileId && payload.fid !== expectedFileId`. -/
def wrongFid (expected : Option String) (fid : String) : Bool :=
  match expected with
  | some e => e != fid
  | none => false

/-- `handleScanResult` (`receiver.ts` lines 238-374) on a structurally valid
payload: state filter, `!payload.fid` check, version check, wrong-session
filter, then the per-state dispatch. -/
def handleScanResult (atob : String → List Nat) (rx : Receiver) (p : Packet) :
    Receiver × RxEvent :=
  if !(intakeStates.contains rx.receiverState) then (rx, .ignored)
  else if p.pfid = "" then (rx, .ignored)
  else if p.pv ≠ PROTOCOL_VERSION then
    (stopScan { rx with receiverState := .error }, .versionIncompatible p.pv)
  else if rx.receiverState ≠ .waiting_handshake && wrongFid rx.expectedFileId p.pfid then
    (rx, .ignored)
  else
    match p with
    | .handshake _ hfid nam siz tot zip ofn =>
      match rx.receiverState with
      | .waiting_handshake => processHandshake rx hfid nam siz tot zip ofn
      | _ => (rx, .ignored)
    | .dataP _ dfid seq dat =>
      match rx.receiverState with
      | .receiving_data | .waiting_missing | .waiting_final =>
        if rx.expectedFileId = some dfid then processDataChunk rx seq dat
        else (rx, .ignored)
      | _ => (rx, .ignored)
    | .finalP _ ffid chk =>
      match rx.receiverState with
      | .waiting_handshake =>
        if rx.expectedFileId = some ffid then handleFinalPacket atob rx ffid chk
        else (rx, .ignored)
      | .receiving_data | .waiting_missing | .waiting_final =>
        if rx.expectedFileId = some ffid then handleFinalPacket atob rx ffid chk
        else (rx, .ignored)
      | _ => (rx, .ignored)

/-- External events driving the receiver. -/
inductive RxAction
  | scanOk
  | scanFail
  | scanStop
  | packetA (p : Packet)
  | cleanup
deriving DecidableEq, Repr

/-- One receiver step: button presses, scanner results, and the deferred
post-download cleanup (`verifyAndDownload` step 7, which resets the state
100 ms after a completed download). -/
def rxStep (atob : String → List Nat) (rx : Receiver) : RxAction → Receiver
  | .scanOk => startScan rx
  | .scanFail => startScanFailure rx
  | .scanStop => stopScan rx
  | .packetA p => (handleScanResult atob rx p).1
  | .cleanup =>
    if rx.receiverState = .complete then resetReceiverStateInternal rx else rx

/-- Receiver states reachable from module load. -/
inductive RxReachable (atob : String → List Nat) : Receiver → Prop
  | init : RxReachable atob initialReceiver
  | step (rx : Receiver) (a : RxAction) :
      RxReachable atob rx → RxReachable atob (rxStep atob rx a)

/-! ### Chunk-input parsing (`utils.parseChunkInput`, `src/utils.ts` 189-261)

The input string is split on `','` (JS `split(',')`, so `""` splits to
`[""]`); each trimmed part is either a single number or an `a-b` range,
matched against `/^\d+$/` and bounds-checked; valid values go into a `Set`
(first-insertion order, duplicates dropped) which is finally sorted
numerically ascending. -/

/-- JS `String.prototype.split` with a single-char separator, on char lists. -/
def splitOnChar (sep : Char) : List Char → List (List Char)
  | [] => [[]]
  | x :: xs =>
    let r := splitOnChar sep xs
    if x = sep then [] :: r
    else
      match r with
      | [] => [[x]]
      | h :: t => (x :: h) :: t

/-- JS `String.prototype.trim` on char lists (whitespace from both ends). -/
def trimChars (l : List Char) : List Char :=
  ((l.dropWhile Char.isWhitespace).reverse.dropWhile Char.isWhitespace).reverse

/-- The `/^\d+$/` test. -/
def isDigits (l : List Char) : Bool :=
  !l.isEmpty && l.all Char.isDigit

/-- `parseInt(s, 10)` on an all-digit string. -/
def parseDigits (l : List Char) : Nat :=
  l.foldl (fun a c => 10 * a + (c.toNat - 48)) 0

/-- `Set.prototype.add`: append only if absent (insertion order). -/
def setAdd (uniq : List Nat) (n : Nat) : List Nat :=
  if uniq.contains n then uniq else uniq ++ [n]

/-- The `for (let i = start; i <= end; i++) uniqueChunks.add(i)` loop. -/
def setAddRange (uniq : List Nat) (a b : Nat) : List Nat :=
  (List.range' a (b + 1 - a)).foldl setAdd uniq

/-- One loop iteration of `parseChunkInput` over a comma-separated part:
`none` models `return null`. -/
def parseChunkPart (maxChunk : Nat) (uniq : List Nat) (part : List Char) :
    Option (List Nat) :=
  let t := trimChars part
  if t.isEmpty then some uniq
  else if t.contains '-' then
    match splitOnChar '-' t with
    | [s1, s2] =>
      let s1 := trimChars s1
      let s2 := trimChars s2
      if !isDigits s1 || !isDigits s2 then none
      else
        let a := parseDigits s1
        let b := parseDigits s2
        if a = 0 ∨ b < a ∨ maxChunk < a ∨ maxChunk < b then none
        else some (setAddRange uniq a b)
    | _ => none
  else if !isDigits t then none
  else
    let n := parseDigits t
    if n = 0 ∨ maxChunk < n then none else some (setAdd uniq n)

/-- The `for (const part of parts)` loop of `parseChunkInput`. -/
def parseChunkParts (maxChunk : Nat) : List (List Char) → List Nat → Option (List Nat)
  | [], uniq => some uniq
  | p :: rest, uniq =>
    match parseChunkPart maxChunk uniq p with
    | none => none
    | some u => parseChunkParts maxChunk rest u

/-- `utils.parseChunkInput` (`src/utils.ts` lines 189-261). -/
def parseChunkInput (input : String) (maxChunk : Nat) : Option (List Nat) :=
  if (trimChars input.data).isEmpty then some []
  else if maxChunk = 0 then none
  else
    match parseChunkParts maxChunk (splitOnChar ',' input.data) [] with
    | none => none
    | some uniq => some (sortAsc uniq)

/-! ### Payload serialization (`JSON.stringify` in `src/sender.ts`)

`JSON.stringify` emits the fields in insertion order.  The values placed in
string positions (the `fid_<time>_<hex>` file id, base64 chunk data, the
4-hex-digit checksum, and the percent-encoded names) contain no `"` or `\`,
so plain quoting is the exact rendering. -/

/-- A JSON string literal (no escaping needed for the values used). -/
def jsonStr (s : String) : String := "\"" ++ s ++ "\""

/-- Serialized handshake payload
`{"v":1,"fid":…,"typ":"h","nam":…,"siz":…,"tot":…,"zip":true(,"ofn":…)}`. -/
def serializeHandshake (fid nam : String) (siz tot : Nat) (ofn : Option String) : String :=
  "\x7b\"v\":1,\"fid\":" ++ jsonStr fid ++ ",\"typ\":\"h\",\"nam\":" ++ jsonStr nam ++
    ",\"siz\":" ++ toString siz ++ ",\"tot\":" ++ toString tot ++ ",\"zip\":true" ++
    (match ofn with
     | some o => ",\"ofn\":" ++ jsonStr o
     | none => "") ++ "\x7d"

/-- Serialized data payload `{"v":1,"fid":…,"typ":"d","seq":…,"dat":…}`. -/
def serializeData (fid : String) (seq : Nat) (dat : String) : String :=
  "\x7b\"v\":1,\"fid\":" ++ jsonStr fid ++ ",\"typ\":\"d\",\"seq\":" ++ toString seq ++
    ",\"dat\":" ++ jsonStr dat ++ "\x7d"

/-- Serialized final payload `{"v":1,"fid":…,"typ":"f","chk":…}`. -/
def serializeFinal (fid chk : String) : String :=
  "\x7b\"v\":1,\"fid\":" ++ jsonStr fid ++ ",\"typ\":\"f\",\"chk\":" ++ jsonStr chk ++ "\x7d"

/-! ### Sender state machine (`src/sender.ts`, `src/state.ts`) -/

/-- `types.SenderPhase`. -/
inductive SenderPhase
  | idle | processing | ready | transferring | final_qr_displayed
  | post_final | sending_specific | error
deriving DecidableEq, Repr

/-- The sender-side variables of `src/state.ts` read by the emission logic.
`dataToSendSize` is `dataToSendBuffer?.byteLength` (`none` = no buffer);
rate/timer/UI variables are omitted. -/
structure Sender where
  phase : SenderPhase
  dataToSendSize : Option Nat
  base64Data : String
  chunks : List String
  totalDataChunks : Nat
  currentChunkIndex : Int
  transferFileId : String
  dataToSendChecksum : String
  isSingleFileOriginal : Bool
  originalSingleFilename : Option String
  specificChunksToSend : List Nat
  specificChunkSendIndex : Nat
  totalStepsInCurrentSequence : Nat
deriving DecidableEq, Repr

/-- `state.resetSenderStateInternal` (`src/state.ts` lines 305-343). -/
def resetSenderStateInternal (clearFiles : Bool) (sd : Sender) : Sender :=
  let sd :=
    { sd with
      phase :=
        if clearFiles then .idle
        else if sd.dataToSendSize.isSome then .ready
        else .idle
      specificChunksToSend := []
      specificChunkSendIndex := 0
      totalStepsInCurrentSequence := 0
      currentChunkIndex := -1
      transferFileId := ""
      chunks := []
      totalDataChunks := 0 }
  if clearFiles then
    { sd with
      dataToSendSize := none
      base64Data := ""
      dataToSendChecksum := ""
      isSingleFileOriginal := false
      originalSingleFilename := none
      phase := .idle }
  else sd

/-- `handleFileError` (`src/sender.ts` lines 264-272): full reset, then the
phase is forced to `error`. -/
def handleFileError (sd : Sender) : Sender :=
  { resetSenderStateInternal true sd with phase := .error }

/-- `handleStopTransfer` (`src/sender.ts` lines 1381-1451): timers cleared,
state reset (keeping the loaded data when `fullReset` is false), UI updated. -/
def handleStopTransfer (fullReset : Bool) (sd : Sender) : Sender :=
  resetSenderStateInternal fullReset sd

/-- `handlePostFinalState` (`src/sender.ts` lines 822-868): only acts from
`transferring`, `sending_specific` or `final_qr_displayed`. -/
def handlePostFinalState (sd : Sender) : Sender :=
  if sd.phase = .transferring ∨ sd.phase = .sending_specific ∨
      sd.phase = .final_qr_displayed then
    { sd with phase := .post_final }
  else sd

/-- Observable effect of one sender emission step. -/
inductive SenderEvent
  | noop
  | dataError
  | emitted (payload : String)
  | capacityAbort
  | skippedInvalid (seq : Nat)
deriving DecidableEq, Repr

/-- The payload computed by `displayNextChunk` step 2 for the current index:
index 0 is the handshake, `1..N` the data chunks, `N+1` the final packet. -/
inductive NextPayload
  | emitP (payload : String)
  | fileErr
  | pastEnd
deriving DecidableEq, Repr

/-- Payload construction in `displayNextChunk` (`src/sender.ts` lines 604-716),
given `siz = dataToSendBuffer.byteLength`. -/
def nextPayload (sd : Sender) (siz : Nat) : NextPayload :=
  let cdi : Int := sd.currentChunkIndex + 1
  if cdi = 0 then
    .emitP (serializeHandshake sd.transferFileId
      MULTI_FILE_ARCHIVE_NAME siz sd.totalDataChunks
      (if sd.isSingleFileOriginal then sd.originalSingleFilename else none))
  else if cdi ≤ (sd.totalDataChunks : Int) then
    let di := (cdi - 1).toNat
    if sd.chunks.length ≤ di then .fileErr
    else .emitP (serializeData sd.transferFileId (di + 1) (sd.chunks.getD di ""))
  else if cdi = (sd.totalDataChunks : Int) + 1 then
    if sd.dataToSendChecksum = "" then .fileErr
    else .emitP (serializeFinal sd.transferFileId sd.dataToSendChecksum)
  else .pastEnd

/-- The emission-time capacity check of `displayNextChunk` step 3:
`payloadString.length > qrCapacity * 1.1`.  The four capacities are multiples
of 100 and IEEE-754 `cap * 1.1` lands strictly between the integers
`11 * cap / 10` and `11 * cap / 10 + 1`, so for integer lengths the float
comparison is exactly `10 * length > 11 * cap`. -/
def overCapacity (cap : Nat) (payload : String) : Bool :=
  11 * cap < 10 * payload.length

/-- `displayNextChunk` (`src/sender.ts` lines 604-816): guards, payload
construction, capacity check (aborting via `resetSenderStateInternal(false)`
then `handleStopTransfer(false)` without displaying), emission, index
advance, and the `final_qr_displayed` transition after the final packet. -/
def displayNextChunk (cap : Nat) (sd : Sender) : Sender × SenderEvent :=
  if sd.phase ≠ .transferring then (sd, .noop)
  else
    match sd.dataToSendSize with
    | none => (handleFileError sd, .dataError)
    | some siz =>
      match nextPayload sd siz with
      | .fileErr => (handleFileError sd, .dataError)
      | .pastEnd => (handlePostFinalState { sd with phase := .post_final }, .noop)
      | .emitP payload =>
        if overCapacity cap payload then
          (handleStopTransfer false (resetSenderStateInternal false sd), .capacityAbort)
        else
          let cdi := sd.currentChunkIndex + 1
          let sd := { sd with currentChunkIndex := cdi }
          let sd :=
            if (sd.totalDataChunks : Int) + 1 ≤ cdi then
              { sd with phase := .final_qr_displayed }
            else sd
          (sd, .emitted payload)

/-- `handleSendSpecific` (`src/sender.ts` lines 931-1006): parse the input,
and on a non-empty valid list enter `sending_specific` with the parsed list.
The boolean reports whether the sequence started (the source then calls
`displaySpecificChunk()`). -/
def handleSendSpecific (input : String) (sd : Sender) : Sender × Bool :=
  if sd.dataToSendSize.isNone || sd.chunks.isEmpty then (sd, false)
  else
    match parseChunkInput input sd.totalDataChunks with
    | none => (sd, false)
    | some [] => (sd, false)
    | some parsed =>
      ({ sd with
          specificChunksToSend := parsed
          specificChunkSendIndex := 0
          phase := .sending_specific
          totalStepsInCurrentSequence := parsed.length }, true)

/-- `displayFinalConfirmationQR` (`src/sender.ts` lines 1198-1273). -/
def displayFinalConfirmationQR (cap : Nat) (sd : Sender) : Sender × SenderEvent :=
  if sd.dataToSendSize.isNone || sd.dataToSendChecksum = "" then
    (handleFileError sd, .dataError)
  else
    let sd := { sd with phase := .final_qr_displayed }
    let payload := serializeFinal sd.transferFileId sd.dataToSendChecksum
    if overCapacity cap payload then
      (handleStopTransfer false (resetSenderStateInternal false sd), .capacityAbort)
    else (sd, .emitted payload)

/-- `displaySpecificChunk` (`src/sender.ts` lines 1012-1129) together with the
state effects of `scheduleNextSpecificChunk` (lines 1135-1191): when the
specific list is exhausted the final confirmation QR is displayed; otherwise
the chunk at the current index is emitted (or skipped if out of range) and
the index advances. -/
def displaySpecificChunk (cap : Nat) (sd : Sender) : Sender × SenderEvent :=
  if sd.phase ≠ .sending_specific then (sd, .noop)
  else if sd.specificChunksToSend.length ≤ sd.specificChunkSendIndex then
    displayFinalConfirmationQR cap sd
  else if sd.dataToSendSize.isNone || sd.chunks.isEmpty then
    (handleFileError sd, .dataError)
  else
    let i := sd.specificChunkSendIndex
    let seq := sd.specificChunksToSend.getD i 0
    if seq = 0 ∨ sd.chunks.length < seq then
      ({ sd with specificChunkSendIndex := i + 1 }, .skippedInvalid seq)
    else
      let payload := serializeData sd.transferFileId seq (sd.chunks.getD (seq - 1) "")
      if overCapacity cap payload then
        (handlePostFinalState { sd with phase := .post_final }, .capacityAbort)
      else
        ({ sd with specificChunkSendIndex := i + 1 }, .emitted payload)

/-! ### Concrete test fixtures used by the witnesses -/

/-- A receiver that has received its single expected chunk and awaits the
final packet. -/
def rxC6 : Receiver :=
  { receiverState := .waiting_final, isScanning := true, hasScanner := true,
    expectedFileId := some ("A"), expectedTotalChunks := some 1,
    expectedArchiveName := some ("n"), expectedDataSize := some 2,
    expectedIsZip := true, expectedOriginalFilename := none,
    store := ⟨[(1, ("QUJD"))], 1⟩ }

/-- A concrete base64 decoder used by the witnesses. -/
def atobC6 : String → List Nat := fun _ => [7, 9]

/-- A receiver mid-transfer: total 5 expected, chunks 1, 3, 5 received. -/
def rxC3 : Receiver :=
  { receiverState := .receiving_data, isScanning := true, hasScanner := true,
    expectedFileId := some ("A"), expectedTotalChunks := some 5,
    expectedArchiveName := some ("n"), expectedDataSize := some 9,
    expectedIsZip := true, expectedOriginalFilename := none,
    store := ⟨[(1, ("aa")), (3, ("bb")), (5, ("cc"))], 3⟩ }

/-- The invariant refuted-claim C8 turns on: whenever the receiver is in
`waiting_handshake`, no session fileId is remembered (`startScan` always
resets the transfer state before entering `waiting_handshake`). -/
def WaitingHandshakeNoFid (rx : Receiver) : Prop :=
  rx.receiverState = .waiting_handshake → rx.expectedFileId = none

/-- The automatic-mode driver for a specific-chunk resend: each unit of fuel
is one timer tick firing `displaySpecificChunk` (which shows the final
confirmation QR once the list is exhausted), collecting the emitted events. -/
def runSpecificSteps (cap : Nat) (fuel : Nat) (sd : Sender) : Sender × List SenderEvent :=
  match fuel with
  | 0 => (sd, [])
  | fuel + 1 =>
    let r := displaySpecificChunk cap sd
    let rest := runSpecificSteps cap fuel r.1
    (rest.1, r.2 :: rest.2)

/-- A sender in `post_final` with three loaded chunks, used by the C7 witness. -/
def sdC7 : Sender :=
  { phase := .post_final, dataToSendSize := some 9,
    base64Data := "QUJDREVGR0hJ", chunks := [("QUJD"), ("REVG"), ("R0hJ")],
    totalDataChunks := 3, currentChunkIndex := 4, transferFileId := "fid_7",
    dataToSendChecksum := "0123", isSingleFileOriginal := false,
    originalSingleFilename := none, specificChunksToSend := [],
    specificChunkSendIndex := 0, totalStepsInCurrentSequence := 0 }

/-- A sender mid-transfer whose next data chunk serializes to more than 1.1x
the `H`-level capacity estimate of 800 bytes. -/
def sdC5 : Sender :=
  { phase := .transferring, dataToSendSize := some 10,
    base64Data := "", chunks := [String.mk (List.replicate 900 'A')],
    totalDataChunks := 1, currentChunkIndex := 0, transferFileId := "fid_1",
    dataToSendChecksum := "abcd", isSingleFileOriginal := false,
    originalSingleFilename := none, specificChunksToSend := [],
    specificChunkSendIndex := 0, totalStepsInCurrentSequence := 3 }

/-! # Theorems -/

/-! ## The chunk splitter (C1) -/

theorem prepareChunksSplit_nil (k : Nat) : prepareChunksSplit k [] = [] := by
  rw [prepareChunksSplit]
  simp

theorem prepareChunksSplit_cons (k : Nat) (s : List Char) (hk : k ≠ 0) (hs : s ≠ []) :
    prepareChunksSplit k s = s.take k :: prepareChunksSplit k (s.drop k) := by
  rw [prepareChunksSplit]
  rw [dif_neg]
  simp [hk, hs]

theorem prepareChunksSplit_mem_length (k : Nat) (s : List Char) :
    ∀ c ∈ prepareChunksSplit k s, c.length ≤ k := by
  induction s using prepareChunksSplit.induct k with
  | case1 s h =>
    rw [prepareChunksSplit, dif_pos h]
    intro c hc
    simp at hc
  | case2 s h ih =>
    rw [prepareChunksSplit, dif_neg h]
    push_neg at h
    intro c hc
    rcases List.mem_cons.mp hc with hc | hc
    · subst hc
      simpa using List.length_take_le k s
    · exact ih c hc

theorem prepareChunksSplit_join (k : Nat) (s : List Char) (hk : 0 < k) :
    (prepareChunksSplit k s).join = s := by
  induction s using prepareChunksSplit.induct k with
  | case1 s h =>
    rw [prepareChunksSplit, dif_pos h]
    rcases h with h | h
    · omega
    · simp [h]
  | case2 s h ih =>
    rw [prepareChunksSplit, dif_neg h]
    simp [ih, List.take_append_drop]

theorem prepareChunksSplit_length (k : Nat) (s : List Char) (hk : 0 < k) :
    (prepareChunksSplit k s).length = (s.length + k - 1) / k := by
  induction s using prepareChunksSplit.induct k with
  | case1 s h =>
    rw [prepareChunksSplit, dif_pos h]
    rcases h with h | h
    · omega
    · subst h
      have h0 : (0 + k - 1) / k = 0 := Nat.div_eq_of_lt (by omega)
      simpa using h0.symm
  | case2 s h ih =>
    rw [prepareChunksSplit, dif_neg h]
    push_neg at h
    have hs : 0 < s.length := List.length_pos.mpr h.2
    simp [ih, List.length_drop]
    rcases Nat.lt_or_ge s.length k with hlt | hge
    · have h1 : s.length - k = 0 := by omega
      rw [h1]
      have h2 : (0 + k - 1) / k = 0 := Nat.div_eq_of_lt (by omega)
      have h3 : (s.length + k - 1) / k = 1 := by
        rw [Nat.div_eq_of_lt_le] <;> omega
      omega
    · have h1 : s.length - k + k - 1 = s.length - 1 := by omega
      have h2 : s.length + k - 1 = (s.length - 1) + k := by omega
      rw [h1, h2, Nat.add_div_right _ hk]

theorem prepareChunksSplit_eq_nil_iff (k : Nat) (s : List Char) (hk : 0 < k) :
    prepareChunksSplit k s = [] ↔ s = [] := by
  constructor
  · intro h
    by_contra hs
    rw [prepareChunksSplit_cons k s (by omega) hs] at h
    simp at h
  · intro h
    subst h
    exact prepareChunksSplit_nil k

/-- C1: for every input string `S` and every effective chunk size `K > 0`,
the splitter of `prepareChunks` produces chunks of length at most `K` whose
in-order concatenation is exactly `S`, with `⌈|S| / K⌉` chunks, and with no
chunks exactly when `S` is empty. -/
theorem claim_C1 (S : List Char) (K : Nat) (hK : 0 < K) :
    (∀ c ∈ prepareChunksSplit K S, c.length ≤ K) ∧
    (prepareChunksSplit K S).join = S ∧
    (prepareChunksSplit K S).length = (S.length + K - 1) / K ∧
    (prepareChunksSplit K S = [] ↔ S = []) :=
  ⟨prepareChunksSplit_mem_length K S, prepareChunksSplit_join K S hK,
    prepareChunksSplit_length K S hK, prepareChunksSplit_eq_nil_iff K S hK⟩

/-- Witness for C1 at `S = "abcde"`, `K = 2`. -/
theorem claim_C1_witness :
    0 < 2 ∧
    ((∀ c ∈ prepareChunksSplit 2 "abcde".data, c.length ≤ 2) ∧
      (prepareChunksSplit 2 "abcde".data).join = "abcde".data ∧
      (prepareChunksSplit 2 "abcde".data).length = ("abcde".data.length + 2 - 1) / 2 ∧
      (prepareChunksSplit 2 "abcde".data = [] ↔ "abcde".data = [])) :=
  ⟨by decide, claim_C1 "abcde".data 2 (by decide)⟩

/-! ## The receiver chunk store (C2, C10) -/

theorem mapHas_iff_mem_keys (m : ChunkMap) (k : Nat) :
    mapHas m k = true ↔ k ∈ mapKeys m := by
  simp [mapHas, mapKeys, List.any_eq_true]

theorem mapGet_isSome (m : ChunkMap) (k : Nat) :
    (mapGet m k).isSome = mapHas m k := by
  rw [Bool.eq_iff_iff]
  simp [mapGet, mapHas, List.find?_isSome, List.any_eq_true]

theorem mapGet_append_single (m : ChunkMap) (q : Nat) (d : String) (k : Nat) :
    mapGet (m ++ [(q, d)]) k =
      (mapGet m k).or (if k = q then some d else none) := by
  simp only [mapGet, List.find?_append]
  cases hf : m.find? (fun p => p.fst == k) with
  | none =>
    by_cases hkq : k = q
    · subst hkq
      simp [List.find?_cons]
    · simp [List.find?_cons, beq_iff_eq, hkq, Ne.symm hkq]
  | some p =>
    simp

theorem mapHas_append_self (m : ChunkMap) (q : Nat) (d : String) :
    mapHas (m ++ [(q, d)]) q = true := by
  simp [mapHas, List.any_append]

theorem addReceivedChunk_idem (st : ChunkStore) (q : Nat) (d : String) :
    addReceivedChunk (addReceivedChunk st q d) q d = addReceivedChunk st q d := by
  by_cases hq : mapHas st.map q
  · simp [addReceivedChunk, hq]
  · simp [addReceivedChunk, hq, mapHas_append_self]

theorem addReceivedChunk_count_length (st : ChunkStore) (q : Nat) (d : String)
    (h : st.count = st.map.length) :
    (addReceivedChunk st q d).count = (addReceivedChunk st q d).map.length := by
  by_cases hq : mapHas st.map q
  · simpa [addReceivedChunk, hq] using h
  · simp [addReceivedChunk, hq, h]

theorem mem_keys_addReceivedChunk (st : ChunkStore) (q : Nat) (d : String) (k : Nat) :
    k ∈ mapKeys (addReceivedChunk st q d).map ↔ k ∈ mapKeys st.map ∨ k = q := by
  by_cases hq : mapHas st.map q
  · rw [addReceivedChunk, if_pos hq]
    have hqk := (mapHas_iff_mem_keys _ _).mp hq
    constructor
    · exact Or.inl
    · rintro (h | rfl)
      · exact h
      · exact hqk
  · rw [addReceivedChunk, if_neg hq]
    simp [mapKeys]

theorem keys_nodup_addReceivedChunk (st : ChunkStore) (q : Nat) (d : String)
    (h : (mapKeys st.map).Nodup) :
    (mapKeys (addReceivedChunk st q d).map).Nodup := by
  by_cases hq : mapHas st.map q
  · rwa [addReceivedChunk, if_pos hq]
  · rw [addReceivedChunk, if_neg hq]
    have hq' : q ∉ mapKeys st.map := fun hm =>
      hq ((mapHas_iff_mem_keys _ _).mpr hm)
    simp only [mapKeys, List.map_append]
    exact List.Nodup.append h (List.nodup_singleton q) (by simpa [mapKeys] using hq')

theorem mapGet_addReceivedChunk (st : ChunkStore) (q : Nat) (d : String) (k : Nat) :
    mapGet (addReceivedChunk st q d).map k =
      (mapGet st.map k).or (if k = q then some d else none) := by
  by_cases hq : mapHas st.map q
  · rw [addReceivedChunk, if_pos hq]
    by_cases hkq : k = q
    · subst hkq
      have hsome : (mapGet st.map k).isSome := by rw [mapGet_isSome]; exact hq
      cases hg : mapGet st.map k with
      | none => rw [hg] at hsome; simp at hsome
      | some v => simp
    · simp [hkq]
  · rw [addReceivedChunk, if_neg hq]
    exact mapGet_append_single st.map q d k

theorem deliverAll_nil (f : Nat → String) (st : ChunkStore) :
    deliverAll f [] st = st := rfl

theorem deliverAll_cons (f : Nat → String) (q : Nat) (rest : List Nat) (st : ChunkStore) :
    deliverAll f (q :: rest) st = deliverAll f rest (addReceivedChunk st q (f q)) := rfl

theorem mapGet_deliverAll (f : Nat → String) (seqs : List Nat) (st : ChunkStore) (k : Nat) :
    mapGet (deliverAll f seqs st).map k =
      (mapGet st.map k).or (if k ∈ seqs then some (f k) else none) := by
  induction seqs generalizing st with
  | nil => simp [deliverAll_nil]
  | cons q rest ih =>
    rw [deliverAll_cons, ih, mapGet_addReceivedChunk, Option.or_assoc]
    by_cases hkq : k = q
    · subst hkq
      simp
    · simp [hkq, List.mem_cons]

theorem mem_keys_deliverAll (f : Nat → String) (seqs : List Nat) (st : ChunkStore) (k : Nat) :
    k ∈ mapKeys (deliverAll f seqs st).map ↔ k ∈ mapKeys st.map ∨ k ∈ seqs := by
  induction seqs generalizing st with
  | nil => simp [deliverAll_nil]
  | cons q rest ih =>
    rw [deliverAll_cons, ih, mem_keys_addReceivedChunk]
    simp [List.mem_cons]
    tauto

theorem keys_nodup_deliverAll (f : Nat → String) (seqs : List Nat) (st : ChunkStore)
    (h : (mapKeys st.map).Nodup) :
    (mapKeys (deliverAll f seqs st).map).Nodup := by
  induction seqs generalizing st with
  | nil => simpa [deliverAll_nil] using h
  | cons q rest ih =>
    rw [deliverAll_cons]
    exact ih _ (keys_nodup_addReceivedChunk st q (f q) h)

theorem count_length_deliverAll (f : Nat → String) (seqs : List Nat) (st : ChunkStore)
    (h : st.count = st.map.length) :
    (deliverAll f seqs st).count = (deliverAll f seqs st).map.length := by
  induction seqs generalizing st with
  | nil => simpa [deliverAll_nil] using h
  | cons q rest ih =>
    rw [deliverAll_cons]
    exact ih _ (addReceivedChunk_count_length st q (f q) h)

theorem mem_ascendingDistinct (total : Nat) (seqs : List Nat) (k : Nat)
    (hb : ∀ q ∈ seqs, 1 ≤ q ∧ q ≤ total) :
    k ∈ ascendingDistinct total seqs ↔ k ∈ seqs := by
  simp only [ascendingDistinct, List.mem_filter, List.mem_map, List.mem_range]
  constructor
  · rintro ⟨_, hc⟩
    simpa using hc
  · intro hk
    refine ⟨⟨k - 1, ?_, ?_⟩, by simpa using hk⟩
    · have := hb k hk
      omega
    · have := hb k hk
      omega

theorem ascendingDistinct_nodup (total : Nat) (seqs : List Nat) :
    (ascendingDistinct total seqs).Nodup := by
  apply List.Nodup.filter
  exact (List.nodup_range total).map (fun a b => by omega)

/-- C2: delivering any sequence of data packets (any order, arbitrary
duplication) with sequence numbers drawn from `1..total` yields the same
`receivedChunksMap` (as a key-to-value mapping) and the same
`receivedChunkCount` as delivering each distinct chunk exactly once in
ascending order; `addReceivedChunk` is idempotent, and the count never
exceeds `total`. -/
theorem claim_C2 (f : Nat → String) (total : Nat) (seqs : List Nat)
    (hb : ∀ q ∈ seqs, 1 ≤ q ∧ q ≤ total) :
    (∀ k, mapGet (deliverAll f seqs emptyStore).map k
        = mapGet (deliverAll f (ascendingDistinct total seqs) emptyStore).map k) ∧
    (deliverAll f seqs emptyStore).count
        = (deliverAll f (ascendingDistinct total seqs) emptyStore).count ∧
    (∀ st q d, addReceivedChunk (addReceivedChunk st q d) q d = addReceivedChunk st q d) ∧
    (deliverAll f seqs emptyStore).count ≤ total := by
  have hmem : ∀ k, k ∈ mapKeys (deliverAll f seqs emptyStore).map ↔ k ∈ seqs := by
    intro k
    rw [mem_keys_deliverAll]
    simp [emptyStore, mapKeys]
  have hmem' : ∀ k,
      k ∈ mapKeys (deliverAll f (ascendingDistinct total seqs) emptyStore).map ↔
        k ∈ seqs := by
    intro k
    rw [mem_keys_deliverAll]
    simp only [emptyStore, mapKeys, List.map_nil, List.not_mem_nil, false_or]
    exact mem_ascendingDistinct total seqs k hb
  have hnd : (mapKeys (deliverAll f seqs emptyStore).map).Nodup :=
    keys_nodup_deliverAll f seqs emptyStore (by simp [emptyStore, mapKeys])
  have hnd' : (mapKeys (deliverAll f (ascendingDistinct total seqs) emptyStore).map).Nodup :=
    keys_nodup_deliverAll f _ emptyStore (by simp [emptyStore, mapKeys])
  have hcl : (deliverAll f seqs emptyStore).count
      = (deliverAll f seqs emptyStore).map.length :=
    count_length_deliverAll f seqs emptyStore (by simp [emptyStore])
  have hcl' : (deliverAll f (ascendingDistinct total seqs) emptyStore).count
      = (deliverAll f (ascendingDistinct total seqs) emptyStore).map.length :=
    count_length_deliverAll f _ emptyStore (by simp [emptyStore])
  refine ⟨?_, ?_, addReceivedChunk_idem, ?_⟩
  · intro k
    rw [mapGet_deliverAll, mapGet_deliverAll]
    have : k ∈ ascendingDistinct total seqs ↔ k ∈ seqs :=
      mem_ascendingDistinct total seqs k hb
    by_cases hk : k ∈ seqs <;> simp [this, hk]
  · have hperm : List.Perm (mapKeys (deliverAll f seqs emptyStore).map)
        (mapKeys (deliverAll f (ascendingDistinct total seqs) emptyStore).map) :=
      (List.perm_ext_iff_of_nodup hnd hnd').mpr (fun k => by rw [hmem, hmem'])
    have := hperm.length_eq
    rw [hcl, hcl']
    simpa [mapKeys] using this
  · have hsub : mapKeys (deliverAll f seqs emptyStore).map ⊆
        (List.range total).map (fun i => i + 1) := by
      intro k hk
      have hks : k ∈ seqs := (hmem k).mp hk
      have := hb k hks
      simp only [List.mem_map, List.mem_range]
      exact ⟨k - 1, by omega, by omega⟩
    have hle := (List.Nodup.subperm hnd hsub).length_le
    rw [hcl]
    simpa [mapKeys] using hle

/-- Witness for C2 with `total = 3` and deliveries `[2, 1, 2, 3, 1]`. -/
theorem claim_C2_witness :
    (∀ q ∈ [2, 1, 2, 3, 1], 1 ≤ q ∧ q ≤ 3) ∧
    ((∀ k, mapGet (deliverAll (fun q => toString q) [2, 1, 2, 3, 1] emptyStore).map k
        = mapGet (deliverAll (fun q => toString q)
            (ascendingDistinct 3 [2, 1, 2, 3, 1]) emptyStore).map k) ∧
    (deliverAll (fun q => toString q) [2, 1, 2, 3, 1] emptyStore).count
        = (deliverAll (fun q => toString q)
            (ascendingDistinct 3 [2, 1, 2, 3, 1]) emptyStore).count ∧
    (∀ st q d, addReceivedChunk (addReceivedChunk st q d) q d = addReceivedChunk st q d) ∧
    (deliverAll (fun q => toString q) [2, 1, 2, 3, 1] emptyStore).count ≤ 3) :=
  ⟨by decide, claim_C2 (fun q => toString q) 3 [2, 1, 2, 3, 1] (by decide)⟩

/-- C10: each operation touching the receiver chunk store keeps
`receivedChunkCount` equal to the cardinality of `receivedChunksMap`:
`clearReceivedChunks` and `resetReceiverStateInternal` re-establish it
outright, and `addReceivedChunk` preserves it. -/
theorem claim_C10 (st : ChunkStore) (q : Nat) (d : String) (rx : Receiver) :
    ((clearReceivedChunks st).count = (clearReceivedChunks st).map.length) ∧
    (st.count = st.map.length →
      (addReceivedChunk st q d).count = (addReceivedChunk st q d).map.length) ∧
    ((resetReceiverStateInternal rx).store.count
        = (resetReceiverStateInternal rx).store.map.length) :=
  ⟨by simp [clearReceivedChunks],
    addReceivedChunk_count_length st q d,
    by simp [resetReceiverStateInternal]⟩

/-- Witness for C10 at a concrete store and receiver. -/
theorem claim_C10_witness :
    (emptyStore.count = emptyStore.map.length) ∧
    ((clearReceivedChunks emptyStore).count = (clearReceivedChunks emptyStore).map.length) ∧
    ((addReceivedChunk emptyStore 1 ("a")).count
        = (addReceivedChunk emptyStore 1 ("a")).map.length) ∧
    ((resetReceiverStateInternal initialReceiver).store.count
        = (resetReceiverStateInternal initialReceiver).store.map.length) :=
  ⟨by decide,
    (claim_C10 emptyStore 1 ("a") initialReceiver).1,
    (claim_C10 emptyStore 1 ("a") initialReceiver).2.1 (by decide),
    (claim_C10 emptyStore 1 ("a") initialReceiver).2.2⟩

/-! ## The checksum and verification (C6) -/

theorem foldl_mod_65536 (l : List Nat) (a : Nat) :
    l.foldl (fun s b => (s + b) % 65536) (a % 65536) = (a + l.sum) % 65536 := by
  induction l generalizing a with
  | nil => simp
  | cons b t ih =>
    simp only [List.foldl_cons, List.sum_cons]
    rw [Nat.mod_add_mod, ih (a + b)]
    congr 1
    omega

theorem checksum_sum_eq (bytes : List Nat) :
    bytes.foldl (fun s b => (s + b) % 65536) 0 = bytes.sum % 65536 := by
  have h := foldl_mod_65536 bytes 0
  simpa using h

theorem toDigitsCore_eq_minimal (fuel : Nat) :
    ∀ n ds, n < 16 ^ fuel → 0 < fuel →
      Nat.toDigitsCore 16 fuel n ds = minimalHexDigits n ++ ds := by
  induction fuel with
  | zero => intro n ds _ h0; omega
  | succ fuel ih =>
    intro n ds hn _
    by_cases h16 : n / 16 = 0
    · have hlt : n < 16 := by omega
      simp only [Nat.toDigitsCore, h16, if_true]
      rw [minimalHexDigits, if_pos hlt, Nat.mod_eq_of_lt hlt]
      simp
    · have hge : 16 ≤ n := by omega
      simp only [Nat.toDigitsCore, h16, if_false]
      have hfuel : 0 < fuel := by
        rcases Nat.eq_zero_or_pos fuel with h | h
        · subst h
          simp at hn
          omega
        · exact h
      have hdiv : n / 16 < 16 ^ fuel := by
        rw [Nat.div_lt_iff_lt_mul (by omega)]
        calc n < 16 ^ (fuel + 1) := hn
        _ = 16 ^ fuel * 16 := by rw [pow_succ]
      rw [ih (n / 16) (Nat.digitChar (n % 16) :: ds) hdiv hfuel]
      have hrw : minimalHexDigits n
          = minimalHexDigits (n / 16) ++ [Nat.digitChar (n % 16)] := by
        rw [minimalHexDigits, if_neg (by omega)]
      rw [hrw]
      simp

theorem toDigits16_eq_minimal (n : Nat) :
    Nat.toDigits 16 n = minimalHexDigits n := by
  have h1 : n < 16 ^ (n + 1) := by
    calc n < 16 ^ n := Nat.lt_pow_self (by omega) n
    _ ≤ 16 ^ (n + 1) := Nat.pow_le_pow_right (by omega) (by omega)
  have := toDigitsCore_eq_minimal (n + 1) n [] h1 (by omega)
  simpa [Nat.toDigits] using this

theorem minimalHexDigits_length_le (k : Nat) :
    ∀ n, n < 16 ^ (k + 1) → (minimalHexDigits n).length ≤ k + 1 := by
  induction k with
  | zero =>
    intro n hn
    rw [minimalHexDigits, if_pos (by omega)]
    simp
  | succ k ih =>
    intro n hn
    by_cases h16 : n < 16
    · rw [minimalHexDigits, if_pos h16]
      simp
    · rw [minimalHexDigits, if_neg h16]
      have hdiv : n / 16 < 16 ^ (k + 1) := by
        rw [Nat.div_lt_iff_lt_mul (by omega)]
        calc n < 16 ^ (k + 1 + 1) := hn
        _ = 16 ^ (k + 1) * 16 := by rw [pow_succ]
      have := ih (n / 16) hdiv
      simp only [List.length_append, List.length_singleton]
      omega

theorem digitChar_isLowerHexDigit :
    ∀ m, m < 16 → isLowerHexDigit (Nat.digitChar m) = true := by decide

theorem hexCharVal_digitChar :
    ∀ m, m < 16 → hexCharVal (Nat.digitChar m) = m := by decide

theorem minimalHexDigits_mem (n : Nat) :
    ∀ c ∈ minimalHexDigits n, isLowerHexDigit c = true := by
  induction n using minimalHexDigits.induct with
  | case1 n h =>
    rw [minimalHexDigits, if_pos h]
    intro c hc
    rw [List.mem_singleton] at hc
    subst hc
    exact digitChar_isLowerHexDigit n h
  | case2 n h ih =>
    rw [minimalHexDigits, if_neg h]
    intro c hc
    rcases List.mem_append.mp hc with hc | hc
    · exact ih c hc
    · rw [List.mem_singleton] at hc
      subst hc
      exact digitChar_isLowerHexDigit _ (Nat.mod_lt n (by omega))

theorem minimalHexDigits_foldl (n : Nat) :
    ∀ a, (minimalHexDigits n).foldl (fun x c => 16 * x + hexCharVal c) a
      = a * 16 ^ (minimalHexDigits n).length + n := by
  induction n using minimalHexDigits.induct with
  | case1 n h =>
    intro a
    rw [minimalHexDigits, if_pos h]
    simp [hexCharVal_digitChar n h]
    ring
  | case2 n h ih =>
    intro a
    rw [minimalHexDigits, if_neg h]
    rw [List.foldl_append, ih a]
    simp only [List.foldl_cons, List.foldl_nil, List.length_append,
      List.length_singleton]
    rw [hexCharVal_digitChar _ (Nat.mod_lt n (by omega))]
    have hdm : 16 * (n / 16) + n % 16 = n := Nat.div_add_mod n 16
    calc 16 * (a * 16 ^ (minimalHexDigits (n / 16)).length + n / 16) + n % 16
        = a * (16 ^ (minimalHexDigits (n / 16)).length * 16)
          + (16 * (n / 16) + n % 16) := by ring
    _ = a * 16 ^ ((minimalHexDigits (n / 16)).length + 1) + n := by
        rw [hdm, pow_succ]

theorem interpHex_minimalHexDigits (n : Nat) :
    interpHex (minimalHexDigits n) = n := by
  have := minimalHexDigits_foldl n 0
  simpa [interpHex] using this

theorem foldl_replicate_zero (m : Nat) :
    (List.replicate m '0').foldl (fun a c => 16 * a + hexCharVal c) 0 = 0 := by
  induction m with
  | zero => simp
  | succ m ih =>
    rw [List.replicate_succ, List.foldl_cons]
    simpa [hexCharVal] using ih

theorem interpHex_padStart4Zero (l : List Char) :
    interpHex (padStart4Zero l) = interpHex l := by
  rw [padStart4Zero, interpHex, List.foldl_append, foldl_replicate_zero, interpHex]

/-- `stopScan` changes only the scanner fields. -/
theorem stopScan_fields (rx : Receiver) :
    (stopScan rx).receiverState = rx.receiverState ∧
    (stopScan rx).expectedFileId = rx.expectedFileId ∧
    (stopScan rx).expectedTotalChunks = rx.expectedTotalChunks ∧
    (stopScan rx).expectedDataSize = rx.expectedDataSize ∧
    (stopScan rx).expectedArchiveName = rx.expectedArchiveName ∧
    (stopScan rx).store = rx.store := by
  rw [stopScan]
  split <;> simp

/-- C6: `calculateChecksum` renders the byte sum modulo 65536 as exactly four
lowercase hexadecimal digits (zero-padded on the left), and the receiver's
verification compares the recomputed checksum to the final packet's checksum
by exact string equality, entering the terminal `error` state on mismatch and
only starting the download on an exact match. -/
theorem claim_C6 (bytes : List Nat) (atob : String → List Nat) (rx : Receiver)
    (chk : String) (total size : Nat) (nam joined : String)
    (h1 : rx.expectedTotalChunks = some total)
    (h2 : rx.expectedDataSize = some size)
    (h3 : rx.expectedArchiveName = some nam)
    (h4 : rx.store.count = total)
    (h5 : assembleChunks total rx.store.map = some joined)
    (h6 : (atob joined).length = size) :
    (calculateChecksum bytes).length = 4 ∧
    (∀ c ∈ (calculateChecksum bytes).data, isLowerHexDigit c = true) ∧
    interpHex (calculateChecksum bytes).data = bytes.sum % 65536 ∧
    (calculateChecksum (atob joined) ≠ chk →
      (verifyAndDownload atob rx chk).1.receiverState = .error ∧
      (verifyAndDownload atob rx chk).2 = .verified .checksumMismatch) ∧
    (calculateChecksum (atob joined) = chk →
      (verifyAndDownload atob rx chk).1.receiverState = .complete ∧
      (verifyAndDownload atob rx chk).2 = .verified .downloadStarted) := by
  have hsum : bytes.foldl (fun s b => (s + b) % 65536) 0 = bytes.sum % 65536 :=
    checksum_sum_eq bytes
  have hlt : bytes.sum % 65536 < 16 ^ 4 := Nat.mod_lt _ (by omega)
  have hdig : calculateChecksum bytes
      = ⟨padStart4Zero (minimalHexDigits (bytes.sum % 65536))⟩ := by
    rw [calculateChecksum]
    simp only [hsum, toDigits16_eq_minimal]
  have hlen4 : (padStart4Zero (minimalHexDigits (bytes.sum % 65536))).length = 4 := by
    have hle := minimalHexDigits_length_le 3 (bytes.sum % 65536) hlt
    simp only [padStart4Zero, List.length_append, List.length_replicate]
    omega
  have hfields := stopScan_fields rx
  refine ⟨?_, ?_, ?_, ?_, ?_⟩
  · rw [hdig]
    simpa [String.length] using hlen4
  · rw [hdig]
    intro c hc
    have hc' : c ∈ padStart4Zero (minimalHexDigits (bytes.sum % 65536)) := hc
    rw [padStart4Zero] at hc'
    rcases List.mem_append.mp hc' with h | h
    · have h0 : c = '0' := List.eq_of_mem_replicate h
      subst h0
      decide
    · exact minimalHexDigits_mem _ c h
  · rw [hdig]
    show interpHex (padStart4Zero (minimalHexDigits (bytes.sum % 65536)))
        = bytes.sum % 65536
    rw [interpHex_padStart4Zero, interpHex_minimalHexDigits]
  · intro hne
    rw [verifyAndDownload]
    rw [hfields.2.2.1, hfields.2.2.2.1, hfields.2.2.2.2.1, h1, h2, h3]
    simp [hfields.2.2.2.2.2, h4, h5, h6, hne,
      show ¬(size = 0 ∧ 0 < size) by omega]
  · intro heq
    rw [verifyAndDownload]
    rw [hfields.2.2.1, hfields.2.2.2.1, hfields.2.2.2.2.1, h1, h2, h3]
    simp [hfields.2.2.2.2.2, h4, h5, h6, heq,
      show ¬(size = 0 ∧ 0 < size) by omega]

/-- Witness for C6 at `bytes = [1,2,3]`, the fixture receiver `rxC6`, and a
mismatching final checksum `"zz"`. -/
theorem claim_C6_witness :
    (rxC6.expectedTotalChunks = some 1) ∧
    (rxC6.expectedDataSize = some 2) ∧
    (rxC6.expectedArchiveName = some ("n")) ∧
    (rxC6.store.count = 1) ∧
    (assembleChunks 1 rxC6.store.map = some ("QUJD")) ∧
    ((atobC6 ("QUJD")).length = 2) ∧
    ((calculateChecksum [1, 2, 3]).length = 4 ∧
      (∀ c ∈ (calculateChecksum [1, 2, 3]).data, isLowerHexDigit c = true) ∧
      interpHex (calculateChecksum [1, 2, 3]).data = [1, 2, 3].sum % 65536 ∧
      (calculateChecksum (atobC6 ("QUJD")) ≠ ("zz") →
        (verifyAndDownload atobC6 rxC6 ("zz")).1.receiverState = .error ∧
        (verifyAndDownload atobC6 rxC6 ("zz")).2 = .verified .checksumMismatch) ∧
      (calculateChecksum (atobC6 ("QUJD")) = ("zz") →
        (verifyAndDownload atobC6 rxC6 ("zz")).1.receiverState = .complete ∧
        (verifyAndDownload atobC6 rxC6 ("zz")).2 = .verified .downloadStarted)) :=
  ⟨by decide, by decide, by decide, by decide, by decide, by decide,
    claim_C6 [1, 2, 3] atobC6 rxC6 ("zz") 1 2 ("n") ("QUJD")
      (by decide) (by decide) (by decide) (by decide) (by decide) (by decide)⟩

/-! ## Missing-chunk range formatting (C9) -/

/-- C9: `formatMissingChunks` renders a sorted comma-separated range list:
`[1,2,3,5,7,8] ↦ "1-3, 5, 7-8"`, `[] ↦ "None"`, `[4] ↦ "4"` (and the input
is sorted first, so the descending permutation renders identically). -/
theorem claim_C9 :
    formatMissingChunks [1, 2, 3, 5, 7, 8] = "1-3, 5, 7-8" ∧
    formatMissingChunks [] = "None" ∧
    formatMissingChunks [4] = "4" ∧
    formatMissingChunks [8, 7, 5, 3, 2, 1] = "1-3, 5, 7-8" := by
  decide

/-! ## Final packet handling while chunks are missing (C3) -/

theorem verifyAndDownload_isVerified (atob : String → List Nat) (rx : Receiver)
    (chk : String) : ((verifyAndDownload atob rx chk).2).isVerified = true := by
  rw [verifyAndDownload]
  split
  · split
    · rfl
    · split
      · rfl
      · dsimp only
        split
        · rfl
        · split
          · rfl
          · split <;> rfl
  · rfl

/-- C3: with the receiver in `receiving_data` or `waiting_missing`, a final
packet for the current `fileId` makes `checkForMissingChunksAndFinalize`
compute the missing set over `1..total`; an empty set proceeds to
verification, a non-empty set moves to `waiting_missing`, reports exactly the
missing list, and leaves scanning running. -/
theorem claim_C3 (atob : String → List Nat) (rx : Receiver) (fid chk : String) (t : Nat)
    (hstate : rx.receiverState = .receiving_data ∨ rx.receiverState = .waiting_missing)
    (hfid : rx.expectedFileId = some fid)
    (hfidne : fid ≠ "")
    (htot : rx.expectedTotalChunks = some t)
    (ht : 0 < t)
    (hscan : rx.isScanning = true)
    (hchk : chk ≠ "") :
    (missingChunkList t rx.store.map = [] →
      ((handleScanResult atob rx (.finalP 1 fid chk)).2).isVerified = true) ∧
    (missingChunkList t rx.store.map ≠ [] →
      (handleScanResult atob rx (.finalP 1 fid chk)).1.receiverState = .waiting_missing ∧
      (handleScanResult atob rx (.finalP 1 fid chk)).2
          = .missingReported (missingChunkList t rx.store.map) ∧
      (handleScanResult atob rx (.finalP 1 fid chk)).1.isScanning = true) := by
  have hred : handleScanResult atob rx (.finalP 1 fid chk)
      = handleFinalPacket atob rx fid chk := by
    rw [handleScanResult]
    rcases hstate with h | h <;>
      simp [h, intakeStates, Packet.pfid, Packet.pv, PROTOCOL_VERSION, hfidne,
        hfid, wrongFid]
  have hred2 : handleFinalPacket atob rx fid chk
      = checkForMissingChunksAndFinalize atob rx chk := by
    rw [handleFinalPacket]
    simp [hfid, hchk]
  constructor
  · intro hm
    rw [hred, hred2, checkForMissingChunksAndFinalize, htot]
    simp only [show ¬t = 0 by omega, if_false, hm]
    simp [verifyAndDownload_isVerified]
  · intro hm
    rw [hred, hred2, checkForMissingChunksAndFinalize, htot]
    simp only [show ¬t = 0 by omega, if_false]
    simp [List.isEmpty_iff, hm, hscan]

/-- Witness for C3 at the fixture `rxC3` (missing `[2, 4]` of 5). -/
theorem claim_C3_witness :
    (rxC3.receiverState = .receiving_data ∨ rxC3.receiverState = .waiting_missing) ∧
    (rxC3.expectedFileId = some ("A")) ∧
    (("A" : String) ≠ "") ∧
    (rxC3.expectedTotalChunks = some 5) ∧
    0 < 5 ∧
    (rxC3.isScanning = true) ∧
    (("0abc" : String) ≠ "") ∧
    ((missingChunkList 5 rxC3.store.map = [] →
      ((handleScanResult atobC6 rxC3 (.finalP 1 ("A") ("0abc"))).2).isVerified = true) ∧
    (missingChunkList 5 rxC3.store.map ≠ [] →
      (handleScanResult atobC6 rxC3 (.finalP 1 ("A") ("0abc"))).1.receiverState
          = .waiting_missing ∧
      (handleScanResult atobC6 rxC3 (.finalP 1 ("A") ("0abc"))).2
          = .missingReported (missingChunkList 5 rxC3.store.map) ∧
      (handleScanResult atobC6 rxC3 (.finalP 1 ("A") ("0abc"))).1.isScanning = true)) :=
  ⟨by decide, by decide, by decide, by decide, by decide, by decide, by decide,
    claim_C3 atobC6 rxC3 ("A") ("0abc") 5 (by decide) (by decide) (by decide)
      (by decide) (by decide) (by decide) (by decide)⟩

/-! ## Version mismatch (C4) -/

/-- C4: in every intake state, a structurally valid packet with a version
other than the implementation's forces the `error` state, stops and destroys
the scanner (halting intake for this scan session), and reports the
incompatibility. -/
theorem claim_C4 (atob : String → List Nat) (rx : Receiver) (p : Packet)
    (hstate : intakeStates.contains rx.receiverState = true)
    (hfid : p.pfid ≠ "")
    (hv : p.pv ≠ PROTOCOL_VERSION)
    (hscan : rx.isScanning = true)
    (hscanner : rx.hasScanner = true) :
    (handleScanResult atob rx p).1.receiverState = .error ∧
    (handleScanResult atob rx p).1.isScanning = false ∧
    (handleScanResult atob rx p).1.hasScanner = false ∧
    (handleScanResult atob rx p).2 = .versionIncompatible p.pv := by
  have hmem : rx.receiverState ∈ intakeStates := by simpa using hstate
  rw [handleScanResult.eq_def]
  simp [hmem, hfid, hv, stopScan, hscan, hscanner]

/-- Witness for C4: a version-2 data packet in `receiving_data`. -/
theorem claim_C4_witness :
    (intakeStates.contains rxC3.receiverState = true) ∧
    ((Packet.dataP 2 ("A") 1 ("xx")).pfid ≠ "") ∧
    ((Packet.dataP 2 ("A") 1 ("xx")).pv ≠ PROTOCOL_VERSION) ∧
    (rxC3.isScanning = true) ∧
    (rxC3.hasScanner = true) ∧
    ((handleScanResult atobC6 rxC3 (.dataP 2 ("A") 1 ("xx"))).1.receiverState = .error ∧
    (handleScanResult atobC6 rxC3 (.dataP 2 ("A") 1 ("xx"))).1.isScanning = false ∧
    (handleScanResult atobC6 rxC3 (.dataP 2 ("A") 1 ("xx"))).1.hasScanner = false ∧
    (handleScanResult atobC6 rxC3 (.dataP 2 ("A") 1 ("xx"))).2
        = .versionIncompatible (Packet.dataP 2 ("A") 1 ("xx")).pv) :=
  ⟨by decide, by decide, by decide, by decide, by decide,
    claim_C4 atobC6 rxC3 (.dataP 2 ("A") 1 ("xx"))
      (by decide) (by decide) (by decide) (by decide) (by decide)⟩

/-! ## Sender capacity overflow (C5) -/

set_option maxRecDepth 8000 in
/-- C5 counterexample: at EC level `H` (capacity estimate 800) a data payload
of over 880 bytes aborts the sequence, but the sender ends in phase `ready`,
not `error` — refuting "aborts to the Error state". -/
theorem claim_C5_counterexample :
    800 < (serializeData ("fid_1") 1 (String.mk (List.replicate 900 'A'))).length ∧
    overCapacity 800 (serializeData ("fid_1") 1 (String.mk (List.replicate 900 'A')))
        = true ∧
    (displayNextChunk 800 sdC5).2 = .capacityAbort ∧
    (displayNextChunk 800 sdC5).1.phase = .ready ∧
    ¬(displayNextChunk 800 sdC5).1.phase = .error := by
  decide

/-- C5 (amended): when the serialized payload exceeds 1.1x the capacity
estimate at emission time, `displayNextChunk` aborts the sequence without
displaying the packet, reports the overflow, and resets the sender to
`ready` (data kept; `idle` only if no data were loaded) — not to `error`. -/
theorem claim_C5_amended (cap : Nat) (sd : Sender) (siz : Nat) (payload : String)
    (hphase : sd.phase = .transferring)
    (hsize : sd.dataToSendSize = some siz)
    (hpay : nextPayload sd siz = .emitP payload)
    (hover : overCapacity cap payload = true) :
    (displayNextChunk cap sd).2 = .capacityAbort ∧
    (displayNextChunk cap sd).1.phase = .ready ∧
    (displayNextChunk cap sd).1.phase ≠ .error ∧
    (∀ s, (displayNextChunk cap sd).2 ≠ .emitted s) := by
  rw [displayNextChunk]
  simp [hphase, hsize, hpay, hover, handleStopTransfer, resetSenderStateInternal]

set_option maxRecDepth 8000 in
/-- Witness for the amended C5 at the fixture `sdC5`. -/
theorem claim_C5_witness :
    (sdC5.phase = .transferring) ∧
    (sdC5.dataToSendSize = some 10) ∧
    (nextPayload sdC5 10
        = .emitP (serializeData ("fid_1") 1 (String.mk (List.replicate 900 'A')))) ∧
    (overCapacity 800 (serializeData ("fid_1") 1 (String.mk (List.replicate 900 'A')))
        = true) ∧
    ((displayNextChunk 800 sdC5).2 = .capacityAbort ∧
      (displayNextChunk 800 sdC5).1.phase = .ready ∧
      (displayNextChunk 800 sdC5).1.phase ≠ .error ∧
      (∀ s, (displayNextChunk 800 sdC5).2 ≠ .emitted s)) :=
  ⟨by decide, by decide, by decide, by decide,
    claim_C5_amended 800 sdC5 10
      (serializeData ("fid_1") 1 (String.mk (List.replicate 900 'A')))
      (by decide) (by decide) (by decide) (by decide)⟩

/-! ## Specific-chunk resend (C7) -/

theorem parse331 (n : Nat) (hn : 3 ≤ n) :
    parseChunkInput ("3,3,1") n = some [1, 3] := by
  have h0 : ¬(n = 0) := by omega
  have hn3 : ¬(n < 3) := by omega
  have hn1 : ¬(n < 1) := by omega
  simp [parseChunkInput, parseChunkParts, parseChunkPart, setAdd, sortAsc,
    insertAsc, h0, hn3, hn1, trimChars, splitOnChar, isDigits, parseDigits]

/-- C7: with an archive of at least 3 chunks loaded, `parseChunkInput`
normalizes the request `"3,3,1"` to the ascending deduplicated list
`[1, 3]`, and the automatic specific-resend sequence emits exactly the two
data packets 1 and 3 one at a time, then re-emits the final packet, then
returns to the `post_final` state. -/
theorem claim_C7 (cap : Nat) (sd : Sender) (siz : Nat)
    (hsize : sd.dataToSendSize = some siz)
    (hlen : sd.chunks.length = sd.totalDataChunks)
    (h3 : 3 ≤ sd.totalDataChunks)
    (hchk : sd.dataToSendChecksum ≠ "")
    (hs1 : overCapacity cap (serializeData sd.transferFileId 1 (sd.chunks.getD 0 "")) = false)
    (hs3 : overCapacity cap (serializeData sd.transferFileId 3 (sd.chunks.getD 2 "")) = false)
    (hsf : overCapacity cap (serializeFinal sd.transferFileId sd.dataToSendChecksum) = false) :
    parseChunkInput ("3,3,1") sd.totalDataChunks = some [1, 3] ∧
    (handleSendSpecific ("3,3,1") sd).2 = true ∧
    (runSpecificSteps cap 3 (handleSendSpecific ("3,3,1") sd).1).2
      = [.emitted (serializeData sd.transferFileId 1 (sd.chunks.getD 0 "")),
         .emitted (serializeData sd.transferFileId 3 (sd.chunks.getD 2 "")),
         .emitted (serializeFinal sd.transferFileId sd.dataToSendChecksum)] ∧
    (handlePostFinalState (runSpecificSteps cap 3 (handleSendSpecific ("3,3,1") sd).1).1).phase
      = .post_final := by
  have hne : sd.chunks ≠ [] := by
    intro h
    rw [h] at hlen
    simp at hlen
    omega
  have hemp : sd.chunks.isEmpty = false := by
    cases hb : sd.chunks.isEmpty
    · rfl
    · exact absurd (List.isEmpty_iff.mp hb) hne
  have hparse := parse331 sd.totalDataChunks h3
  simp only [List.getD_eq_getElem?_getD] at hs1 hs3
  have hs0 : handleSendSpecific ("3,3,1") sd
      = ({ sd with
            specificChunksToSend := [1, 3]
            specificChunkSendIndex := 0
            phase := .sending_specific
            totalStepsInCurrentSequence := 2 }, true) := by
    rw [handleSendSpecific]
    simp [hsize, hemp, hparse]
  have hlen1 : ¬(sd.chunks.length < 1) := by omega
  have hlen3 : ¬(sd.chunks.length < 3) := by omega
  have hstep1 : displaySpecificChunk cap
      { sd with
        specificChunksToSend := [1, 3]
        specificChunkSendIndex := 0
        phase := .sending_specific
        totalStepsInCurrentSequence := 2 }
      = ({ sd with
            specificChunksToSend := [1, 3]
            specificChunkSendIndex := 1
            phase := .sending_specific
            totalStepsInCurrentSequence := 2 },
          .emitted (serializeData sd.transferFileId 1 (sd.chunks.getD 0 ""))) := by
    rw [displaySpecificChunk]
    simp [hsize, hemp, hs1, hlen1]
  have hstep2 : displaySpecificChunk cap
      { sd with
        specificChunksToSend := [1, 3]
        specificChunkSendIndex := 1
        phase := .sending_specific
        totalStepsInCurrentSequence := 2 }
      = ({ sd with
            specificChunksToSend := [1, 3]
            specificChunkSendIndex := 2
            phase := .sending_specific
            totalStepsInCurrentSequence := 2 },
          .emitted (serializeData sd.transferFileId 3 (sd.chunks.getD 2 ""))) := by
    rw [displaySpecificChunk]
    simp [hsize, hemp, hs3, hlen3]
  have hstep3 : displaySpecificChunk cap
      { sd with
        specificChunksToSend := [1, 3]
        specificChunkSendIndex := 2
        phase := .sending_specific
        totalStepsInCurrentSequence := 2 }
      = ({ sd with
            specificChunksToSend := [1, 3]
            specificChunkSendIndex := 2
            phase := .final_qr_displayed
            totalStepsInCurrentSequence := 2 },
          .emitted (serializeFinal sd.transferFileId sd.dataToSendChecksum)) := by
    rw [displaySpecificChunk]
    simp [displayFinalConfirmationQR, hsize, hchk, hsf]
  refine ⟨hparse, ?_, ?_, ?_⟩
  · rw [hs0]
  · rw [hs0]
    simp only [runSpecificSteps, hstep1, hstep2, hstep3]
  · rw [hs0]
    simp only [runSpecificSteps, hstep1, hstep2, hstep3]
    rw [handlePostFinalState]
    simp

/-- Witness for C7 at the fixture `sdC7` with capacity estimate 1500. -/
theorem claim_C7_witness :
    (sdC7.dataToSendSize = some 9) ∧
    (sdC7.chunks.length = sdC7.totalDataChunks) ∧
    (3 ≤ sdC7.totalDataChunks) ∧
    (sdC7.dataToSendChecksum ≠ "") ∧
    (overCapacity 1500 (serializeData sdC7.transferFileId 1 (sdC7.chunks.getD 0 ""))
        = false) ∧
    (overCapacity 1500 (serializeData sdC7.transferFileId 3 (sdC7.chunks.getD 2 ""))
        = false) ∧
    (overCapacity 1500 (serializeFinal sdC7.transferFileId sdC7.dataToSendChecksum)
        = false) ∧
    (parseChunkInput ("3,3,1") sdC7.totalDataChunks = some [1, 3] ∧
      (handleSendSpecific ("3,3,1") sdC7).2 = true ∧
      (runSpecificSteps 1500 3 (handleSendSpecific ("3,3,1") sdC7).1).2
        = [.emitted (serializeData sdC7.transferFileId 1 (sdC7.chunks.getD 0 "")),
           .emitted (serializeData sdC7.transferFileId 3 (sdC7.chunks.getD 2 "")),
           .emitted (serializeFinal sdC7.transferFileId sdC7.dataToSendChecksum)] ∧
      (handlePostFinalState
          (runSpecificSteps 1500 3 (handleSendSpecific ("3,3,1") sdC7).1).1).phase
        = .post_final) :=
  ⟨by decide, by decide, by decide, by decide, by decide, by decide, by decide,
    claim_C7 1500 sdC7 9 (by decide) (by decide) (by decide) (by decide)
      (by decide) (by decide) (by decide)⟩

/-! ## Final packet in WaitingHandshake after a restart (C8) -/

theorem wh_reset (rx : Receiver) :
    WaitingHandshakeNoFid (resetReceiverStateInternal rx) := by
  simp [WaitingHandshakeNoFid, resetReceiverStateInternal]

theorem wh_startScan (rx : Receiver) (h : WaitingHandshakeNoFid rx) :
    WaitingHandshakeNoFid (startScan rx) := by
  rw [startScan]
  split
  · exact h
  · simp [WaitingHandshakeNoFid, resetReceiverStateInternal]

theorem wh_startScanFailure (rx : Receiver) (h : WaitingHandshakeNoFid rx) :
    WaitingHandshakeNoFid (startScanFailure rx) := by
  rw [startScanFailure]
  split
  · exact h
  · simp [WaitingHandshakeNoFid, resetReceiverStateInternal]

theorem wh_stopScan (rx : Receiver) (h : WaitingHandshakeNoFid rx) :
    WaitingHandshakeNoFid (stopScan rx) := by
  rw [stopScan]
  split
  · intro hw
    exact h (by simpa using hw)
  · exact h

theorem wh_verifyAndDownload (atob : String → List Nat) (rx : Receiver) (chk : String) :
    WaitingHandshakeNoFid (verifyAndDownload atob rx chk).1 := by
  rw [verifyAndDownload]
  split
  · split
    · simp [WaitingHandshakeNoFid]
    · split
      · simp [WaitingHandshakeNoFid]
      · dsimp only
        split
        · simp [WaitingHandshakeNoFid]
        · split
          · simp [WaitingHandshakeNoFid]
          · split <;> simp [WaitingHandshakeNoFid]
  · simp [WaitingHandshakeNoFid]

theorem wh_checkForMissing (atob : String → List Nat) (rx : Receiver) (chk : String) :
    WaitingHandshakeNoFid (checkForMissingChunksAndFinalize atob rx chk).1 := by
  rw [checkForMissingChunksAndFinalize]
  split
  · exact wh_stopScan _ (by simp [WaitingHandshakeNoFid])
  · split
    · exact wh_verifyAndDownload atob rx chk
    · dsimp only
      split
      · exact wh_verifyAndDownload atob rx chk
      · split
        · exact wh_startScan _ (by simp [WaitingHandshakeNoFid])
        · simp [WaitingHandshakeNoFid]

theorem wh_handleFinalPacket (atob : String → List Nat) (rx : Receiver) (fid chk : String)
    (h : WaitingHandshakeNoFid rx) :
    WaitingHandshakeNoFid (handleFinalPacket atob rx fid chk).1 := by
  rw [handleFinalPacket]
  split
  · exact h
  · split
    · exact wh_stopScan _ (by simp [WaitingHandshakeNoFid])
    · exact wh_checkForMissing atob rx chk

theorem wh_processDataChunk (rx : Receiver) (seq : Nat) (dat : String)
    (h : WaitingHandshakeNoFid rx) :
    WaitingHandshakeNoFid (processDataChunk rx seq dat).1 := by
  rw [processDataChunk]
  dsimp only
  split
  · exact h
  · split
    · exact h
    · split
      · split <;> split <;> simp_all [WaitingHandshakeNoFid]
      · split
        · simp [WaitingHandshakeNoFid]
        · intro hw
          exact h (by simpa using hw)

theorem wh_processHandshake (rx : Receiver) (fid nam : String) (siz tot : Nat)
    (zip : Bool) (ofn : Option String) (h : WaitingHandshakeNoFid rx) :
    WaitingHandshakeNoFid (processHandshake rx fid nam siz tot zip ofn).1 := by
  rw [processHandshake]
  split
  · exact h
  · split
    · split <;> simp [WaitingHandshakeNoFid]
    · exact h

theorem wh_handleScanResult (atob : String → List Nat) (rx : Receiver) (p : Packet)
    (h : WaitingHandshakeNoFid rx) :
    WaitingHandshakeNoFid (handleScanResult atob rx p).1 := by
  rw [handleScanResult.eq_def]
  split
  · exact h
  · split
    · exact h
    · split
      · exact wh_stopScan _ (by simp [WaitingHandshakeNoFid])
      · split
        · exact h
        · split <;> split <;>
            first
              | exact h
              | exact wh_processHandshake _ _ _ _ _ _ _ h
              | (split <;>
                  first
                    | exact wh_processDataChunk _ _ _ h
                    | exact wh_handleFinalPacket _ _ _ _ h
                    | exact h)

theorem wh_rxStep (atob : String → List Nat) (rx : Receiver) (a : RxAction)
    (h : WaitingHandshakeNoFid rx) :
    WaitingHandshakeNoFid (rxStep atob rx a) := by
  cases a with
  | scanOk => exact wh_startScan rx h
  | scanFail => exact wh_startScanFailure rx h
  | scanStop => exact wh_stopScan rx h
  | packetA p => exact wh_handleScanResult atob rx p h
  | cleanup =>
    rw [rxStep]
    split
    · exact wh_reset rx
    · exact h

theorem rxReachable_waitingHandshakeNoFid (atob : String → List Nat) (rx : Receiver)
    (h : RxReachable atob rx) : WaitingHandshakeNoFid rx := by
  induction h with
  | init => simp [WaitingHandshakeNoFid, initialReceiver]
  | step rx a hr ih => exact wh_rxStep atob rx a ih

/-- C8 (refuted; code bug): in every reachable `waiting_handshake` state a
final packet — whatever its fileId — is ignored, because `startScan` clears
`expectedFileId` before entering `waiting_handshake`, so the branch accepting
a final packet for an already-known fileId can never fire and a mid-transfer
restart cannot complete from a resent Final. -/
theorem claim_C8 (atob : String → List Nat) (rx : Receiver) (fid chk : String)
    (hreach : RxReachable atob rx)
    (hw : rx.receiverState = .waiting_handshake) :
    handleScanResult atob rx (.finalP 1 fid chk) = (rx, .ignored) := by
  have hfid : rx.expectedFileId = none :=
    rxReachable_waitingHandshakeNoFid atob rx hreach hw
  rw [handleScanResult]
  by_cases hfe : fid = ""
  · simp [hw, intakeStates, Packet.pfid, Packet.pv, hfe]
  · simp [hw, intakeStates, Packet.pfid, Packet.pv, PROTOCOL_VERSION, hfe,
      wrongFid, hfid]

/-- The failing scenario for C8, evaluated concretely: adopt fileId "A",
stop, restart (re-entering `waiting_handshake`), then a final packet for "A"
is ignored rather than triggering the completeness check. -/
theorem restartLosesSession :
    ((handleScanResult atobC6 (startScan initialReceiver)
        (.handshake 1 ("A") ("n") 3 1 true none)).1.expectedFileId = some ("A")) ∧
    ((startScan (stopScan (handleScanResult atobC6 (startScan initialReceiver)
        (.handshake 1 ("A") ("n") 3 1 true none)).1)).receiverState
      = .waiting_handshake) ∧
    ((startScan (stopScan (handleScanResult atobC6 (startScan initialReceiver)
        (.handshake 1 ("A") ("n") 3 1 true none)).1)).expectedFileId = none) ∧
    (handleScanResult atobC6
        (startScan (stopScan (handleScanResult atobC6 (startScan initialReceiver)
          (.handshake 1 ("A") ("n") 3 1 true none)).1))
        (.finalP 1 ("A") ("0a"))
      = (startScan (stopScan (handleScanResult atobC6 (startScan initialReceiver)
          (.handshake 1 ("A") ("n") 3 1 true none)).1), .ignored)) := by
  decide

theorem claim_C8_witness :
    ((startScan initialReceiver).receiverState = .waiting_handshake) ∧
    handleScanResult atobC6 (startScan initialReceiver) (.finalP 1 ("A") ("0a"))
      = (startScan initialReceiver, .ignored) :=
  ⟨by decide,
    claim_C8 atobC6 (startScan initialReceiver) ("A") ("0a")
      (RxReachable.step initialReceiver .scanOk RxReachable.init) (by decide)⟩

end QRAFT

